import Mathlib

/-!
Shallow embedding of the version-model core of `react-native-set-version'
(file `versionUtils.js': `trimText', `versionEquals', `versionStringToVersion',
`updateVersionBuild', `versionToVersionCode').

JavaScript numbers are modelled by `JSNum': an exact rational, `NaN', or one of
the two infinities.  Double rounding is not modelled; every value this
repository manipulates on the paths under study is a small integer, where the
rational model and IEEE doubles agree exactly.  Strings are modelled as
`List Char'; JS string primitives used by the source (`split', `search' with
the regex `[^\d]', `substring', `padStart', template concatenation, unary `+'
string-to-number coercion, `Number.prototype.toString') are given explicit
definitions below.
-/

/-- Model of a JavaScript number: an exact rational, NaN, or an infinity. -/
inductive JSNum where
  | num (q : ℚ)
  | nan
  | inf
  | negInf
deriving DecidableEq, Repr

/-- JS strict equality `===' on numbers: `NaN === NaN' is false. -/
def JSNum.steq : JSNum → JSNum → Bool
  | .num a, .num b => decide (a = b)
  | .inf, .inf => true
  | .negInf, .negInf => true
  | _, _ => false

/-- JS `<' on numbers: any comparison involving NaN is false. -/
def jsLt : JSNum → JSNum → Bool
  | .num a, .num b => decide (a < b)
  | .num _, .inf => true
  | .negInf, .num _ => true
  | .negInf, .inf => true
  | _, _ => false

/-- JS `<=' on numbers: any comparison involving NaN is false. -/
def jsLe : JSNum → JSNum → Bool
  | .num a, .num b => decide (a ≤ b)
  | .num _, .inf => true
  | .negInf, .num _ => true
  | .negInf, .negInf => true
  | .negInf, .inf => true
  | .inf, .inf => true
  | _, _ => false

/-- JS numeric addition. -/
def jsAdd : JSNum → JSNum → JSNum
  | .num a, .num b => .num (a + b)
  | .num _, .inf => .inf
  | .num _, .negInf => .negInf
  | .inf, .num _ => .inf
  | .inf, .inf => .inf
  | .negInf, .num _ => .negInf
  | .negInf, .negInf => .negInf
  | _, _ => .nan

/-- The version descriptor produced and consumed by `versionUtils.js'. -/
structure Version where
  major : JSNum
  minor : JSNum
  patch : JSNum
  build : JSNum
deriving DecidableEq, Repr

/-- Descriptor whose four fields are the given natural numbers. -/
def natVersion (a b c d : ℕ) : Version :=
  ⟨.num a, .num b, .num c, .num d⟩

/-- `versionEquals' from versionUtils.js: field-wise `===' on
`major', `minor', `patch'; `build' is ignored. -/
def versionEquals (versionA versionB : Version) : Bool :=
  versionA.major.steq versionB.major
    && versionA.minor.steq versionB.minor
    && versionA.patch.steq versionB.patch

/-- A JS exception: the TypeError raised by a property access on `null',
or an `Error' thrown with a message. -/
inductive JsError where
  | typeError
  | thrown (msg : String)
deriving DecidableEq, Repr

/-- The message of the `throw new Error(...)' in `updateVersionBuild'. -/
def buildLimitMessage : String :=
  "Sorry you have more than 100 builds using that version consider bumping version or change your version manually"

/-- `updateVersionBuild' from versionUtils.js.  The `currentVersion' argument
may be `null' at the call sites in index.js (a failed platform-file read
leaves `versionInfo.version' at `null'); in that case `versionEquals'
dereferences `currentVersion.major' and JS raises a TypeError, modelled by
the `none' branch. -/
def updateVersionBuild (currentVersion : Option Version) (newVersion : Version)
    (maxBuilds : JSNum) : Except JsError Version :=
  match currentVersion with
  | none => .error .typeError
  | some cv =>
    if versionEquals cv newVersion && jsLt newVersion.build cv.build then
      if jsLe maxBuilds (jsAdd cv.build (.num 1)) then
        .error (.thrown buildLimitMessage)
      else
        .ok ⟨newVersion.major, newVersion.minor, newVersion.patch, jsAdd cv.build (.num 1)⟩
    else
      .ok newVersion

/-- Characterization of `updateVersionBuild' on descriptors with natural
number fields and a rational build ceiling. -/
theorem updateVersionBuild_nat (a b c d a' b' c' d' : ℕ) (m : ℚ) :
    updateVersionBuild (some (natVersion a b c d)) (natVersion a' b' c' d') (.num m) =
      if a = a' ∧ b = b' ∧ c = c' ∧ d' < d then
        if m ≤ (d : ℚ) + 1 then .error (.thrown buildLimitMessage)
        else .ok ⟨.num a', .num b', .num c', .num ((d : ℚ) + 1)⟩
      else .ok (natVersion a' b' c' d') := by
  simp only [updateVersionBuild, versionEquals, natVersion, JSNum.steq, jsLt, jsLe, jsAdd]
  by_cases h1 : a = a' ∧ b = b' ∧ c = c' ∧ d' < d
  · obtain ⟨ha, hb, hc, hd⟩ := h1
    subst ha; subst hb; subst hc
    by_cases h2 : m ≤ (d : ℚ) + 1
    · simp [hd, h2, Nat.cast_lt]
    · simp [hd, h2, Nat.cast_lt]
  · rw [if_neg h1]
    rcases Decidable.not_and_iff_or_not.mp h1 with h | h
    · simp [h]
    rcases Decidable.not_and_iff_or_not.mp h with h | h
    · simp [h]
    rcases Decidable.not_and_iff_or_not.mp h with h | h
    · simp [h]
    · have : ¬ ((d' : ℚ) < (d : ℚ)) := by
        rw [Nat.cast_lt]; omega
      simp [this]

/-- JS regex `\d': an ASCII decimal digit. -/
def isDigitChar (c : Char) : Bool := 48 ≤ c.toNat && c.toNat ≤ 57

/-- The JS WhiteSpace and LineTerminator code points stripped by
string-to-number coercion. -/
def isJsWhitespace (c : Char) : Bool :=
  c.toNat = 9 || c.toNat = 10 || c.toNat = 11 || c.toNat = 12 || c.toNat = 13
    || c.toNat = 32 || c.toNat = 160 || c.toNat = 5760
    || (8192 ≤ c.toNat && c.toNat ≤ 8202)
    || c.toNat = 8232 || c.toNat = 8233 || c.toNat = 8239 || c.toNat = 8287
    || c.toNat = 12288 || c.toNat = 65279

/-- Value of a string of decimal digit characters, most significant first. -/
def digitsVal : List Char → ℕ
  | [] => 0
  | c :: cs => (c.toNat - 48) * 10 ^ cs.length + digitsVal cs

/-- `s.split('.')' from JS: split on every dot; `"".split('.')' is `[""]'. -/
def splitOnDot : List Char → List (List Char)
  | [] => [[]]
  | c :: rest =>
    if c = '.' then [] :: splitOnDot rest
    else
      match splitOnDot rest with
      | t :: ts => (c :: t) :: ts
      | [] => [[c]]

/-- `s.search(/[^\d]/)' from JS: index of the first non-digit character,
`none' standing for the return value `-1'. -/
def firstNonDigit : List Char → Option ℕ
  | [] => none
  | c :: rest =>
    if isDigitChar c then (firstNonDigit rest).map (· + 1)
    else some 0

/-- `trimText' from versionUtils.js: keep the digit prefix when the first
non-digit occurs at an index greater than 0, otherwise return the string
unchanged. -/
def trimText (s : List Char) : List Char :=
  match firstNonDigit s with
  | some indexOfString => if 0 < indexOfString then s.take indexOfString else s
  | none => s

/-- `versionParts[i] || dflt' from JS: a missing or empty token is replaced
by the default literal. -/
def orDefault (parts : List (List Char)) (i : ℕ) (dflt : List Char) : List Char :=
  match parts[i]? with
  | some t => if t.isEmpty then dflt else t
  | none => dflt

/-- Strip JS whitespace from both ends (the first step of string-to-number
coercion). -/
def jsTrim (cs : List Char) : List Char :=
  ((cs.dropWhile isJsWhitespace).reverse.dropWhile isJsWhitespace).reverse

/-- Digit value of a character for a non-decimal radix. -/
def radixDigitVal? (radix : ℕ) (c : Char) : Option ℕ :=
  let v :=
    if 48 ≤ c.toNat ∧ c.toNat ≤ 57 then some (c.toNat - 48)
    else if 97 ≤ c.toNat ∧ c.toNat ≤ 122 then some (c.toNat - 87)
    else if 65 ≤ c.toNat ∧ c.toNat ≤ 90 then some (c.toNat - 55)
    else none
  match v with
  | some d => if d < radix then some d else none
  | none => none

/-- Value of a non-empty digit string in the given radix, `none' when a
character is not a valid digit. -/
def radixVal? (radix : ℕ) (cs : List Char) : Option ℕ :=
  if cs.isEmpty then none
  else
    cs.foldl
      (fun acc c =>
        match acc, radixDigitVal? radix c with
        | some a, some d => some (a * radix + d)
        | _, _ => none)
      (some 0)

/-- `10 ^ e' as a rational, for an integer exponent. -/
def tenPow : ℤ → ℚ
  | .ofNat n => ((10 ^ n : ℕ) : ℚ)
  | .negSucc n => 1 / ((10 ^ (n + 1) : ℕ) : ℚ)

/-- Exponent digits after an optional sign. -/
def expDigits? (ds : List Char) (neg : Bool) : Option ℤ :=
  if ds.isEmpty then none
  else if ds.all isDigitChar then
    some (if neg then -(digitsVal ds : ℤ) else (digitsVal ds : ℤ))
  else none

/-- The exponent part of a decimal literal, after the `e'/`E' marker. -/
def expVal? (cs : List Char) : Option ℤ :=
  match cs with
  | [] => none
  | c :: r =>
    if c = '+' then expDigits? r false
    else if c = '-' then expDigits? r true
    else expDigits? (c :: r) false

/-- Value of a decimal literal split into integer digits, fraction digits and
the remaining (exponent) characters; `none' when the literal is malformed. -/
def decLitTail (ip fp rest : List Char) : Option ℚ :=
  if ip.isEmpty && fp.isEmpty then none
  else
    let mant : ℚ :=
      if fp.isEmpty then (digitsVal ip : ℚ)
      else (digitsVal ip : ℚ) + (digitsVal fp : ℚ) / ((10 ^ fp.length : ℕ) : ℚ)
    match rest with
    | [] => some mant
    | c :: r =>
      if c = 'e' ∨ c = 'E' then (expVal? r).map (fun ex => mant * tenPow ex)
      else none

/-- An unsigned decimal literal: integer digits, an optional fraction, an
optional exponent. -/
def decLit? (cs : List Char) : Option ℚ :=
  match cs.drop (cs.takeWhile isDigitChar).length with
  | [] => decLitTail (cs.takeWhile isDigitChar) [] []
  | c :: r =>
    if c = '.' then
      decLitTail (cs.takeWhile isDigitChar) (r.takeWhile isDigitChar)
        (r.drop (r.takeWhile isDigitChar).length)
    else decLitTail (cs.takeWhile isDigitChar) [] (c :: r)

/-- The body of a signed decimal literal: `Infinity' or an unsigned decimal
literal, `NaN' otherwise. -/
def signedTail (rest : List Char) (neg : Bool) : JSNum :=
  if rest = "Infinity".toList then (if neg then .negInf else .inf)
  else
    match decLit? rest with
    | some q => .num (if neg then -q else q)
    | none => .nan

/-- String-to-number coercion on a whitespace-trimmed string: empty means 0;
a `0x'/`0o'/`0b' prefix selects a non-decimal radix; otherwise an optionally
signed decimal literal or `Infinity'; anything else is `NaN'. -/
def strToNumberT : List Char → JSNum
  | [] => .num 0
  | [c] =>
    if c = '+' then signedTail [] false
    else if c = '-' then signedTail [] true
    else signedTail [c] false
  | c1 :: c2 :: rest =>
    if c1 = '0' ∧ (c2 = 'x' ∨ c2 = 'X') then
      match radixVal? 16 rest with
      | some n => .num n
      | none => .nan
    else if c1 = '0' ∧ (c2 = 'o' ∨ c2 = 'O') then
      match radixVal? 8 rest with
      | some n => .num n
      | none => .nan
    else if c1 = '0' ∧ (c2 = 'b' ∨ c2 = 'B') then
      match radixVal? 2 rest with
      | some n => .num n
      | none => .nan
    else if c1 = '+' then signedTail (c2 :: rest) false
    else if c1 = '-' then signedTail (c2 :: rest) true
    else signedTail (c1 :: c2 :: rest) false

/-- JS unary `+' applied to a string (the ToNumber coercion on strings). -/
def strToNumber (cs : List Char) : JSNum := strToNumberT (jsTrim cs)

/-- The local `versionParts' of `versionStringToVersion'. -/
def versionParts (versionString : String) : List (List Char) :=
  splitOnDot versionString.toList

/-- `versionStringToVersion' from versionUtils.js. -/
def versionStringToVersion (versionString : String) : Version :=
  { major := strToNumber (trimText (orDefault (versionParts versionString) 0 ['0']))
    minor := strToNumber (trimText (orDefault (versionParts versionString) 1 ['1']))
    patch := strToNumber (trimText (orDefault (versionParts versionString) 2 ['0']))
    build := strToNumber (trimText (orDefault (versionParts versionString) 3 ['1'])) }

/-- The decimal digit character for a value below 10. -/
def toDigitChar (d : ℕ) : Char := Char.ofNat (48 + d)

/-- Decimal digits of a natural number, most significant first, driven by a
fuel argument so that the definition is structural. -/
def decCharsAux : ℕ → ℕ → List Char
  | 0, n => [toDigitChar n]
  | fuel + 1, n =>
    if n < 10 then [toDigitChar n]
    else decCharsAux fuel (n / 10) ++ [toDigitChar (n % 10)]

/-- Decimal representation of a natural number. -/
def decChars (n : ℕ) : List Char := decCharsAux n n

/-- Truncated decimal expansion of a fraction, used only for the
non-integral values this repository never produces. -/
def fracDigits : ℕ → ℕ → ℕ → List Char
  | _, _, 0 => []
  | nm, dn, fuel + 1 =>
    if nm = 0 then []
    else toDigitChar (nm * 10 / dn) :: fracDigits (nm * 10 % dn) dn fuel

/-- Decimal notation for a non-integral rational.  JS prints the shortest
round-tripping decimal of the IEEE double; this model prints a truncated
exact expansion instead.  Integral values — the only ones the repository
produces — never reach this function. -/
def ratDecChars (q : ℚ) : List Char :=
  (if q < 0 then ['-'] else []) ++ decChars (q.num.natAbs / q.den)
    ++ ['.'] ++ fracDigits (q.num.natAbs % q.den) q.den 20

/-- `Number.prototype.toString' (radix 10).  Exact for NaN, the infinities
and integral values; see `ratDecChars' for the non-integral case. -/
def JSNum.toChars : JSNum → List Char
  | .nan => "NaN".toList
  | .inf => "Infinity".toList
  | .negInf => "-Infinity".toList
  | .num q =>
    if q.den = 1 then
      if q.num < 0 then '-' :: decChars q.num.natAbs else decChars q.num.natAbs
    else ratDecChars q

/-- `s.padStart(2, 0)' from JS: left-pad with `'0'' to length at least 2. -/
def padStart2 (s : List Char) : List Char :=
  if s.length < 2 then List.replicate (2 - s.length) '0' ++ s else s

/-- `versionToVersionCode' from versionUtils.js: format the four fields,
left-pad each to two digits, concatenate and coerce back to a number. -/
def versionToVersionCode (version : Version) : JSNum :=
  strToNumber (padStart2 version.major.toChars ++ padStart2 version.minor.toChars
    ++ padStart2 version.patch.toChars ++ padStart2 version.build.toChars)

/-- The version-code encoding as the specification words it: format each
field as a decimal string, left-zero-pad to at least 2 digits, concatenate
in order and parse the result as a decimal integer. -/
def specVersionCode (major minor patch build : ℕ) : ℕ :=
  digitsVal (padStart2 (decChars major) ++ padStart2 (decChars minor)
    ++ padStart2 (decChars patch) ++ padStart2 (decChars build))

/-- An ASCII letter. -/
def isAsciiAlpha (c : Char) : Bool :=
  (65 ≤ c.toNat && c.toNat ≤ 90) || (97 ≤ c.toNat && c.toNat ≤ 122)

theorem not_ws_of_digit {c : Char} (h : isDigitChar c = true) : isJsWhitespace c = false := by
  cases hb : isJsWhitespace c with
  | false => rfl
  | true =>
    exfalso
    simp only [isDigitChar, Bool.and_eq_true, decide_eq_true_eq] at h
    simp only [isJsWhitespace, Bool.or_eq_true, Bool.and_eq_true, decide_eq_true_eq] at hb
    omega

theorem not_ws_of_alpha {c : Char} (h : isAsciiAlpha c = true) : isJsWhitespace c = false := by
  cases hb : isJsWhitespace c with
  | false => rfl
  | true =>
    exfalso
    simp only [isAsciiAlpha, Bool.or_eq_true, Bool.and_eq_true, decide_eq_true_eq] at h
    simp only [isJsWhitespace, Bool.or_eq_true, Bool.and_eq_true, decide_eq_true_eq] at hb
    omega

theorem not_digit_of_alpha {c : Char} (h : isAsciiAlpha c = true) : isDigitChar c = false := by
  cases hb : isDigitChar c with
  | false => rfl
  | true =>
    exfalso
    simp only [isAsciiAlpha, Bool.or_eq_true, Bool.and_eq_true, decide_eq_true_eq] at h
    simp only [isDigitChar, Bool.and_eq_true, decide_eq_true_eq] at hb
    omega

/-- A character satisfying a true predicate differs from any character
falsifying it. -/
theorem ne_of_pred {p : Char → Bool} {c c' : Char} (h : p c = true) (h' : p c' = false) :
    c ≠ c' := by
  intro he
  rw [he, h'] at h
  exact Bool.false_ne_true h

theorem dropWhile_eq_self_of {α : Type} (p : α → Bool) (l : List α)
    (h : ∀ c ∈ l, p c = false) : l.dropWhile p = l := by
  cases l with
  | nil => rfl
  | cons a t =>
    rw [List.dropWhile_cons, h a (List.mem_cons_self a t), if_neg Bool.false_ne_true]

theorem jsTrim_eq_self (l : List Char) (h : ∀ c ∈ l, isJsWhitespace c = false) :
    jsTrim l = l := by
  unfold jsTrim
  rw [dropWhile_eq_self_of _ _ h,
    dropWhile_eq_self_of _ _ (fun c hc => h c (List.mem_reverse.mp hc)),
    List.reverse_reverse]

theorem takeWhile_eq_self_of_all {α : Type} (p : α → Bool) (l : List α)
    (h : l.all p = true) : l.takeWhile p = l := by
  induction l with
  | nil => rfl
  | cons a t ih =>
    simp only [List.all_cons, Bool.and_eq_true] at h
    rw [List.takeWhile_cons, if_pos h.1, ih h.2]

theorem firstNonDigit_eq_none (l : List Char) (h : l.all isDigitChar = true) :
    firstNonDigit l = none := by
  induction l with
  | nil => rfl
  | cons a t ih =>
    simp only [List.all_cons, Bool.and_eq_true] at h
    simp [firstNonDigit, h.1, ih h.2]

theorem firstNonDigit_bound (l : List Char) (k : ℕ) (h : firstNonDigit l = some k) :
    k ≤ l.length ∧ ∀ c ∈ l.take k, isDigitChar c = true := by
  induction l generalizing k with
  | nil => simp [firstNonDigit] at h
  | cons a t ih =>
    by_cases ha : isDigitChar a = true
    · rw [firstNonDigit, if_pos ha] at h
      cases ht : firstNonDigit t with
      | none => rw [ht] at h; simp at h
      | some j =>
        rw [ht] at h
        simp at h
        obtain ⟨h1, h2⟩ := ih j ht
        obtain rfl : j + 1 = k := by simpa using h
        refine ⟨by simpa using h1, ?_⟩
        intro c hc
        rw [List.take_succ_cons] at hc
        rcases List.mem_cons.mp hc with rfl | hc
        · exact ha
        · exact h2 c hc
    · rw [firstNonDigit, if_neg ha] at h
      obtain rfl : (0 : ℕ) = k := by simpa using h
      simp

theorem trimText_digits (l : List Char) (h : l.all isDigitChar = true) : trimText l = l := by
  unfold trimText
  rw [firstNonDigit_eq_none l h]

theorem trimText_take (l : List Char) (k : ℕ) (hk : firstNonDigit l = some k)
    (hpos : 0 < k) : trimText l = l.take k := by
  unfold trimText
  rw [hk]
  simp [hpos]

theorem trimText_head_nondigit (l : List Char) (hk : firstNonDigit l = some 0) :
    trimText l = l := by
  unfold trimText
  rw [hk]
  simp

theorem decLitTail_digits (ip : List Char) (hne : ip ≠ []) :
    decLitTail ip [] [] = some ((digitsVal ip : ℚ)) := by
  have h : ip.isEmpty = false := by
    cases ip with
    | nil => exact absurd rfl hne
    | cons a t => rfl
  unfold decLitTail
  simp [h]

theorem decLit?_digits (cs : List Char) (hne : cs ≠ []) (hd : cs.all isDigitChar = true) :
    decLit? cs = some ((digitsVal cs : ℚ)) := by
  unfold decLit?
  rw [takeWhile_eq_self_of_all _ _ hd, List.drop_length]
  exact decLitTail_digits cs hne

theorem signedTail_digits (cs : List Char) (hne : cs ≠ []) (hd : cs.all isDigitChar = true) :
    signedTail cs false = .num (digitsVal cs) := by
  have hinf : cs ≠ "Infinity".toList := by
    intro he
    rw [he] at hd
    exact absurd hd (by decide)
  unfold signedTail
  rw [if_neg hinf, decLit?_digits cs hne hd]
  simp

theorem strToNumberT_digits (cs : List Char) (hne : cs ≠ []) (hd : cs.all isDigitChar = true) :
    strToNumberT cs = .num (digitsVal cs) := by
  rcases cs with _ | ⟨c1, _ | ⟨c2, rest⟩⟩
  · exact absurd rfl hne
  · have hc : isDigitChar c1 = true := by simpa using hd
    have h1 : c1 ≠ '+' := ne_of_pred hc (by decide)
    have h2 : c1 ≠ '-' := ne_of_pred hc (by decide)
    simp only [strToNumberT]
    rw [if_neg h1, if_neg h2]
    exact signedTail_digits [c1] (by simp) hd
  · have hd' := hd
    simp only [List.all_cons, Bool.and_eq_true] at hd'
    obtain ⟨hc1, hc2, -⟩ := hd'
    have n0x : ¬ (c1 = '0' ∧ (c2 = 'x' ∨ c2 = 'X')) := by
      rintro ⟨-, h | h⟩
      · exact ne_of_pred hc2 (by decide) h
      · exact ne_of_pred hc2 (by decide) h
    have n0o : ¬ (c1 = '0' ∧ (c2 = 'o' ∨ c2 = 'O')) := by
      rintro ⟨-, h | h⟩
      · exact ne_of_pred hc2 (by decide) h
      · exact ne_of_pred hc2 (by decide) h
    have n0b : ¬ (c1 = '0' ∧ (c2 = 'b' ∨ c2 = 'B')) := by
      rintro ⟨-, h | h⟩
      · exact ne_of_pred hc2 (by decide) h
      · exact ne_of_pred hc2 (by decide) h
    have h1 : c1 ≠ '+' := ne_of_pred hc1 (by decide)
    have h2 : c1 ≠ '-' := ne_of_pred hc1 (by decide)
    simp only [strToNumberT]
    rw [if_neg n0x, if_neg n0o, if_neg n0b, if_neg h1, if_neg h2]
    exact signedTail_digits (c1 :: c2 :: rest) (by simp) hd

theorem strToNumber_digits (cs : List Char) (hne : cs ≠ []) (hd : cs.all isDigitChar = true) :
    strToNumber cs = .num (digitsVal cs) := by
  unfold strToNumber
  rw [jsTrim_eq_self cs (fun c hc => not_ws_of_digit (List.all_eq_true.mp hd c hc))]
  exact strToNumberT_digits cs hne hd

theorem decLitTail_empty_none (rest : List Char) : decLitTail [] [] rest = none := rfl

theorem decLit?_head_nondigit (c : Char) (r : List Char) (hc : isDigitChar c = false)
    (hdot : c ≠ '.') : decLit? (c :: r) = none := by
  have htw : (c :: r).takeWhile isDigitChar = [] := by
    rw [List.takeWhile_cons, hc, if_neg Bool.false_ne_true]
  unfold decLit?
  rw [htw]
  simp only [List.length_nil, List.drop_zero]
  rw [if_neg hdot]
  exact decLitTail_empty_none _

theorem signedTail_alpha (c : Char) (r : List Char)
    (hc : isAsciiAlpha c = true) (hinf : c :: r ≠ "Infinity".toList) :
    signedTail (c :: r) false = .nan := by
  unfold signedTail
  rw [if_neg hinf,
    decLit?_head_nondigit c r (not_digit_of_alpha hc) (ne_of_pred hc (by decide))]

theorem strToNumber_alpha (cs : List Char) (hd : cs.all isAsciiAlpha = true) (hne : cs ≠ [])
    (hinf : cs ≠ "Infinity".toList) : strToNumber cs = .nan := by
  unfold strToNumber
  rw [jsTrim_eq_self cs (fun c hc => not_ws_of_alpha (List.all_eq_true.mp hd c hc))]
  rcases cs with _ | ⟨c1, _ | ⟨c2, rest⟩⟩
  · exact absurd rfl hne
  · have hc : isAsciiAlpha c1 = true := by simpa using hd
    have h1 : c1 ≠ '+' := ne_of_pred hc (by decide)
    have h2 : c1 ≠ '-' := ne_of_pred hc (by decide)
    simp only [strToNumberT]
    rw [if_neg h1, if_neg h2]
    exact signedTail_alpha c1 [] hc hinf
  · have hd' := hd
    simp only [List.all_cons, Bool.and_eq_true] at hd'
    obtain ⟨hc1, hc2, -⟩ := hd'
    have hz : c1 ≠ '0' := ne_of_pred hc1 (by decide)
    have n0x : ¬ (c1 = '0' ∧ (c2 = 'x' ∨ c2 = 'X')) := fun h => hz h.1
    have n0o : ¬ (c1 = '0' ∧ (c2 = 'o' ∨ c2 = 'O')) := fun h => hz h.1
    have n0b : ¬ (c1 = '0' ∧ (c2 = 'b' ∨ c2 = 'B')) := fun h => hz h.1
    have h1 : c1 ≠ '+' := ne_of_pred hc1 (by decide)
    have h2 : c1 ≠ '-' := ne_of_pred hc1 (by decide)
    simp only [strToNumberT]
    rw [if_neg n0x, if_neg n0o, if_neg n0b, if_neg h1, if_neg h2]
    exact signedTail_alpha c1 (c2 :: rest) hc1 hinf

theorem decCharsAux_fuel (f1 : ℕ) : ∀ (f2 n : ℕ), n ≤ f1 → n ≤ f2 →
    decCharsAux f1 n = decCharsAux f2 n := by
  induction f1 with
  | zero =>
    intro f2 n h1 h2
    obtain rfl : n = 0 := Nat.le_zero.mp h1
    cases f2 with
    | zero => rfl
    | succ g => simp [decCharsAux]
  | succ f ih =>
    intro f2 n h1 h2
    cases f2 with
    | zero =>
      obtain rfl : n = 0 := Nat.le_zero.mp h2
      simp [decCharsAux]
    | succ g =>
      simp only [decCharsAux]
      by_cases hn : n < 10
      · rw [if_pos hn, if_pos hn]
      · rw [if_neg hn, if_neg hn, ih g (n / 10) (by omega) (by omega)]

theorem decChars_unfold (n : ℕ) :
    decChars n = if n < 10 then [toDigitChar n]
      else decChars (n / 10) ++ [toDigitChar (n % 10)] := by
  cases n with
  | zero => simp [decChars, decCharsAux]
  | succ m =>
    show decCharsAux (m + 1) (m + 1) = _
    simp only [decCharsAux]
    by_cases h : m + 1 < 10
    · rw [if_pos h, if_pos h]
    · rw [if_neg h, if_neg h]
      have := decCharsAux_fuel m ((m + 1) / 10) ((m + 1) / 10) (by omega) (le_refl _)
      rw [this]
      rfl

theorem toDigitChar_toNat {d : ℕ} (h : d < 10) : (toDigitChar d).toNat = 48 + d := by
  interval_cases d <;> decide

theorem isDigitChar_toDigitChar {d : ℕ} (h : d < 10) : isDigitChar (toDigitChar d) = true := by
  interval_cases d <;> decide

theorem decChars_ne_nil (n : ℕ) : decChars n ≠ [] := by
  rw [decChars_unfold]
  by_cases h : n < 10
  · simp [h]
  · simp [h]

theorem decChars_all_digit (n : ℕ) : (decChars n).all isDigitChar = true := by
  induction n using Nat.strong_induction_on with
  | _ n ih =>
    rw [decChars_unfold]
    by_cases h : n < 10
    · simp [h, isDigitChar_toDigitChar h]
    · rw [if_neg h, List.all_append]
      simp [ih (n / 10) (by omega), isDigitChar_toDigitChar (Nat.mod_lt n (by omega))]

theorem digitsVal_append (xs ys : List Char) :
    digitsVal (xs ++ ys) = digitsVal xs * 10 ^ ys.length + digitsVal ys := by
  induction xs with
  | nil => simp [digitsVal]
  | cons c t ih =>
    rw [List.cons_append, digitsVal, ih, List.length_append, digitsVal]
    ring

theorem digitsVal_decChars (n : ℕ) : digitsVal (decChars n) = n := by
  induction n using Nat.strong_induction_on with
  | _ n ih =>
    rw [decChars_unfold]
    by_cases h : n < 10
    · rw [if_pos h]
      simp [digitsVal, toDigitChar_toNat h]
    · rw [if_neg h, digitsVal_append]
      simp only [digitsVal, List.length_cons, List.length_nil,
        toDigitChar_toNat (Nat.mod_lt n (by omega)), ih (n / 10) (by omega)]
      simp
      omega

theorem decChars_length_le {n : ℕ} (h : n ≤ 99) : (decChars n).length ≤ 2 := by
  rw [decChars_unfold]
  by_cases h1 : n < 10
  · simp [h1]
  · rw [if_neg h1]
    have h2 : n / 10 < 10 := by omega
    rw [List.length_append, decChars_unfold, if_pos h2]
    simp

theorem digitsVal_zero_pad (k : ℕ) (s : List Char) :
    digitsVal (List.replicate k '0' ++ s) = digitsVal s := by
  induction k with
  | zero => simp
  | succ j ih =>
    have h0 : '0'.toNat - 48 = 0 := by decide
    simp [List.replicate_succ, digitsVal, ih, h0]

theorem padStart2_length (s : List Char) : (padStart2 s).length = max 2 s.length := by
  unfold padStart2
  by_cases hl : s.length < 2
  · rw [if_pos hl]
    simp only [List.length_append, List.length_replicate]
    omega
  · rw [if_neg hl]
    omega

theorem padStart2_digitsVal (s : List Char) : digitsVal (padStart2 s) = digitsVal s := by
  unfold padStart2
  by_cases hl : s.length < 2
  · rw [if_pos hl]
    exact digitsVal_zero_pad _ s
  · rw [if_neg hl]

theorem padStart2_all_digit {s : List Char} (h : s.all isDigitChar = true) :
    (padStart2 s).all isDigitChar = true := by
  unfold padStart2
  by_cases hl : s.length < 2
  · rw [if_pos hl, List.all_append, h]
    have hrep : (List.replicate (2 - s.length) '0').all isDigitChar = true := by
      rw [List.all_eq_true]
      intro c hc
      rw [List.eq_of_mem_replicate hc]
      decide
    simp [hrep]
  · rw [if_neg hl]
    exact h

theorem toChars_natCast (n : ℕ) : (JSNum.num (n : ℚ)).toChars = decChars n := by
  simp only [JSNum.toChars]
  rw [Rat.den_natCast, if_pos rfl, Rat.num_natCast]
  have hnn : ¬ ((n : ℤ) < 0) := by omega
  rw [if_neg hnn]
  simp

/-- The encoder agrees with the specification's format-pad-concatenate-parse
description on every descriptor with natural number fields. -/
theorem versionToVersionCode_nat (a b c d : ℕ) :
    versionToVersionCode (natVersion a b c d) = .num (specVersionCode a b c d) := by
  show strToNumber (padStart2 (JSNum.num (a : ℚ)).toChars ++ padStart2 (JSNum.num (b : ℚ)).toChars
    ++ padStart2 (JSNum.num (c : ℚ)).toChars ++ padStart2 (JSNum.num (d : ℚ)).toChars) = _
  simp only [toChars_natCast]
  rw [strToNumber_digits]
  · rfl
  · intro hnil
    have := congrArg List.length hnil
    simp only [List.length_append, padStart2_length, List.length_nil] at this
    omega
  · simp only [List.all_append, padStart2_all_digit (decChars_all_digit _)]
    rfl

theorem specVersionCode_le99 {a b c d : ℕ} (ha : a ≤ 99) (hb : b ≤ 99) (hc : c ≤ 99)
    (hd : d ≤ 99) : specVersionCode a b c d = ((a * 100 + b) * 100 + c) * 100 + d := by
  have l2 : ∀ n : ℕ, n ≤ 99 → (padStart2 (decChars n)).length = 2 := by
    intro n hn
    rw [padStart2_length]
    have h1 := decChars_length_le hn
    have h2 : 0 < (decChars n).length := List.length_pos.mpr (decChars_ne_nil n)
    omega
  have dv : ∀ n : ℕ, digitsVal (padStart2 (decChars n)) = n := by
    intro n
    rw [padStart2_digitsVal, digitsVal_decChars]
  unfold specVersionCode
  rw [digitsVal_append, digitsVal_append, digitsVal_append,
    l2 b hb, l2 c hc, l2 d hd, dv a, dv b, dv c, dv d]
  norm_num

theorem jsLe_refl {x : JSNum} (h : x ≠ .nan) : jsLe x x = true := by
  cases x <;> simp_all [jsLe]

theorem jsLe_add_one {x y : JSNum} (h : jsLt x y = true) : jsLe x (jsAdd y (.num 1)) = true := by
  cases x <;> cases y <;>
    simp only [jsLt, jsAdd, jsLe, decide_eq_true_eq] at h ⊢ <;>
    first
      | rfl
      | exact h
      | linarith

/-- Lexicographic strict order on four-component version tuples. -/
def lexLt (a b c d a' b' c' d' : ℕ) : Prop :=
  a < a' ∨ (a = a' ∧ (b < b' ∨ (b = b' ∧ (c < c' ∨ (c = c' ∧ d < d')))))

/-- C1: when `current' and `requested' share major, minor and patch and the
requested build is lower than the current one, and the incremented build stays
strictly below the ceiling, `updateVersionBuild' returns the requested major,
minor and patch with build `current.build + 1'. -/
theorem updateVersionBuild_auto_increment (a b c d d' m : ℕ)
    (hlt : d' < d) (hmax : d + 1 < m) :
    updateVersionBuild (some (natVersion a b c d)) (natVersion a b c d') (.num m) =
      .ok ⟨.num a, .num b, .num c, .num ((d : ℚ) + 1)⟩ := by
  have hq : ¬ ((m : ℚ) ≤ (d : ℚ) + 1) := by
    rw [show ((d : ℚ) + 1) = ((d + 1 : ℕ) : ℚ) by push_cast; ring, Nat.cast_le]
    omega
  rw [updateVersionBuild_nat, if_pos ⟨rfl, rfl, rfl, hlt⟩, if_neg hq]

theorem updateVersionBuild_auto_increment_witness :
    updateVersionBuild (some (natVersion 1 2 3 5)) (natVersion 1 2 3 1) (.num 100) =
      .ok ⟨.num 1, .num 2, .num 3, .num ((5 : ℚ) + 1)⟩ :=
  updateVersionBuild_auto_increment 1 2 3 5 1 100 (by decide) (by decide)

/-- C2: `updateVersionBuild' with a non-null current descriptor fails exactly
when major, minor and patch agree, the requested build is lower than the
current one and `current.build + 1' reaches the ceiling, and then the error is
the build-limit error; on every other such input it returns a value. -/
theorem updateVersionBuild_limit_iff (a b c d a' b' c' d' m : ℕ) (e : JsError) :
    (updateVersionBuild (some (natVersion a b c d)) (natVersion a' b' c' d') (.num m)
        = .error e
      ↔ (a = a' ∧ b = b' ∧ c = c' ∧ d' < d ∧ m ≤ d + 1 ∧ e = .thrown buildLimitMessage))
    ∧ (¬ (a = a' ∧ b = b' ∧ c = c' ∧ d' < d ∧ m ≤ d + 1) →
      ∃ v, updateVersionBuild (some (natVersion a b c d)) (natVersion a' b' c' d') (.num m)
        = .ok v) := by
  have hcast : ((m : ℚ) ≤ (d : ℚ) + 1) ↔ m ≤ d + 1 := by
    rw [show ((d : ℚ) + 1) = ((d + 1 : ℕ) : ℚ) by push_cast; ring, Nat.cast_le]
  rw [updateVersionBuild_nat]
  by_cases h1 : a = a' ∧ b = b' ∧ c = c' ∧ d' < d
  · rw [if_pos h1]
    obtain ⟨x1, x2, x3, x4⟩ := h1
    by_cases h2 : m ≤ d + 1
    · rw [if_pos (hcast.mpr h2)]
      refine ⟨⟨fun he => ⟨x1, x2, x3, x4, h2, (Except.error.inj he).symm⟩, ?_⟩,
        fun hn => absurd ⟨x1, x2, x3, x4, h2⟩ hn⟩
      rintro ⟨-, -, -, -, -, rfl⟩
      rfl
    · rw [if_neg (fun hq => h2 (hcast.mp hq))]
      refine ⟨⟨fun he => absurd he (by simp), ?_⟩, fun hn => ⟨_, rfl⟩⟩
      rintro ⟨-, -, -, -, hm, -⟩
      exact absurd hm h2
  · rw [if_neg h1]
    refine ⟨⟨fun he => absurd he (by simp), ?_⟩, fun hn => ⟨_, rfl⟩⟩
    rintro ⟨x1, x2, x3, x4, -, -⟩
    exact absurd ⟨x1, x2, x3, x4⟩ h1

theorem updateVersionBuild_limit_iff_witness :
    updateVersionBuild (some (natVersion 1 2 3 99)) (natVersion 1 2 3 1) (.num 100)
      = .error (.thrown buildLimitMessage) :=
  ((updateVersionBuild_limit_iff 1 2 3 99 1 2 3 1 100 (.thrown buildLimitMessage)).1).mpr
    ⟨rfl, rfl, rfl, by decide, by decide, rfl⟩

/-- C3: the code raises a TypeError when the current descriptor is null
(`versionEquals' dereferences `null.major'), instead of returning the
requested descriptor unchanged as the specification prescribes. -/
theorem updateVersionBuild_null_current :
    updateVersionBuild none (natVersion 1 0 0 1) (.num 100) = .error .typeError := rfl

/-- C4: when the three semantic fields agree but the requested build is not
lower, or when some semantic field differs, `updateVersionBuild' returns the
requested descriptor unchanged. -/
theorem updateVersionBuild_passthrough (a b c d a' b' c' d' m : ℕ)
    (h : (a = a' ∧ b = b' ∧ c = c' ∧ d ≤ d') ∨ ¬ (a = a' ∧ b = b' ∧ c = c')) :
    updateVersionBuild (some (natVersion a b c d)) (natVersion a' b' c' d') (.num m) =
      .ok (natVersion a' b' c' d') := by
  rw [updateVersionBuild_nat, if_neg]
  rintro ⟨x1, x2, x3, x4⟩
  rcases h with ⟨-, -, -, hle⟩ | hne
  · omega
  · exact hne ⟨x1, x2, x3⟩

theorem updateVersionBuild_passthrough_witness :
    updateVersionBuild (some (natVersion 1 2 3 5)) (natVersion 1 2 3 7) (.num 100) =
        .ok (natVersion 1 2 3 7) ∧
      updateVersionBuild (some (natVersion 1 2 3 5)) (natVersion 1 3 0 1) (.num 100) =
        .ok (natVersion 1 3 0 1) :=
  ⟨updateVersionBuild_passthrough 1 2 3 5 1 2 3 7 100 (Or.inl ⟨rfl, rfl, rfl, by decide⟩),
    updateVersionBuild_passthrough 1 2 3 5 1 3 0 1 100 (Or.inr (by decide))⟩

/-- C10: whenever `updateVersionBuild' returns a descriptor for a non-null
current descriptor and a requested descriptor with non-NaN fields, the result
keeps the requested major, minor and patch and its build is at least the
requested build. -/
theorem updateVersionBuild_frame (cur req : Version) (mB : JSNum) (v : Version)
    (hmaj : req.major ≠ .nan) (hmin : req.minor ≠ .nan) (hpat : req.patch ≠ .nan)
    (hbld : req.build ≠ .nan)
    (hok : updateVersionBuild (some cur) req mB = .ok v) :
    v.major = req.major ∧ v.minor = req.minor ∧ v.patch = req.patch ∧
      jsLe req.build v.build = true := by
  replace hok :
      (if versionEquals cur req && jsLt req.build cur.build then
        if jsLe mB (jsAdd cur.build (.num 1)) then
          (.error (.thrown buildLimitMessage) : Except JsError Version)
        else .ok ⟨req.major, req.minor, req.patch, jsAdd cur.build (.num 1)⟩
      else .ok req) = .ok v := hok
  by_cases hcond : (versionEquals cur req && jsLt req.build cur.build) = true
  · rw [if_pos hcond] at hok
    by_cases h2 : jsLe mB (jsAdd cur.build (.num 1)) = true
    · rw [if_pos h2] at hok
      exact absurd hok (by simp)
    · rw [if_neg h2] at hok
      have hv := Except.ok.inj hok
      have hlt : jsLt req.build cur.build = true := by
        simp only [Bool.and_eq_true] at hcond
        exact hcond.2
      rw [← hv]
      exact ⟨rfl, rfl, rfl, jsLe_add_one hlt⟩
  · rw [if_neg hcond] at hok
    have hv := Except.ok.inj hok
    rw [← hv]
    exact ⟨rfl, rfl, rfl, jsLe_refl hbld⟩

theorem updateVersionBuild_frame_witness :
    (natVersion 1 2 3 1).major = (natVersion 1 2 3 1).major ∧
      (natVersion 1 2 3 1).minor = (natVersion 1 2 3 1).minor ∧
      (natVersion 1 2 3 1).patch = (natVersion 1 2 3 1).patch ∧
      jsLe (natVersion 1 2 3 1).build (natVersion 1 2 3 1).build = true :=
  updateVersionBuild_frame (natVersion 9 9 9 9) (natVersion 1 2 3 1) (.num 100)
    (natVersion 1 2 3 1) (by decide) (by decide) (by decide) (by decide) (by rfl)

/-- C5: on descriptors whose four fields all lie in `[0, 99]', the version
code is injective in the field tuple and orders codes exactly as the
lexicographic order on `(major, minor, patch, build)'. -/
theorem versionToVersionCode_inj_mono (a b c d a' b' c' d' : ℕ)
    (ha : a ≤ 99) (hb : b ≤ 99) (hc : c ≤ 99) (hd : d ≤ 99)
    (ha' : a' ≤ 99) (hb' : b' ≤ 99) (hc' : c' ≤ 99) (hd' : d' ≤ 99) :
    (versionToVersionCode (natVersion a b c d) = versionToVersionCode (natVersion a' b' c' d')
      ↔ (a = a' ∧ b = b' ∧ c = c' ∧ d = d'))
    ∧ (jsLt (versionToVersionCode (natVersion a b c d))
        (versionToVersionCode (natVersion a' b' c' d')) = true
      ↔ lexLt a b c d a' b' c' d') := by
  rw [versionToVersionCode_nat, versionToVersionCode_nat,
    specVersionCode_le99 ha hb hc hd, specVersionCode_le99 ha' hb' hc' hd']
  simp only [JSNum.num.injEq, Nat.cast_inj, jsLt, decide_eq_true_eq, Nat.cast_lt, lexLt]
  constructor
  · omega
  · omega

theorem versionToVersionCode_inj_mono_witness :
    jsLt (versionToVersionCode (natVersion 1 2 3 4))
      (versionToVersionCode (natVersion 1 2 4 0)) = true :=
  ((versionToVersionCode_inj_mono 1 2 3 4 1 2 4 0 (by decide) (by decide) (by decide)
      (by decide) (by decide) (by decide) (by decide) (by decide)).2).mpr
    (Or.inr ⟨rfl, Or.inr ⟨rfl, Or.inl (by decide)⟩⟩)

/-- C6: on every descriptor with natural number fields the version code equals
the integer obtained by zero-padding each field's decimal string to at least
two digits, concatenating in order and parsing the result as decimal; in
particular the code of `{1, 2, 3, 4}' is 1020304. -/
theorem versionToVersionCode_spec (a b c d : ℕ) :
    versionToVersionCode (natVersion a b c d) = .num (specVersionCode a b c d) ∧
      versionToVersionCode (natVersion 1 2 3 4) = .num 1020304 :=
  ⟨versionToVersionCode_nat a b c d, by decide⟩

/-- C7 counterexample: the token `abc' does not start with a digit, yet the
parsed major field is NaN, not 0. -/
theorem versionStringToVersion_nonzero_cex :
    (versionStringToVersion "abc.1").major = JSNum.nan ∧
      ¬ ((versionStringToVersion "abc.1").major = JSNum.num 0) := by decide

/-- C7 (amended): a non-empty all-letter token other than `Infinity' yields
NaN (not 0) for its field, at every token position; parsing is total, so no
error is ever raised. -/
theorem versionStringToVersion_alpha_nan (s : String) (t : List Char)
    (halpha : t.all isAsciiAlpha = true) (hne : t ≠ []) (hinf : t ≠ "Infinity".toList) :
    ((versionParts s)[0]? = some t → (versionStringToVersion s).major = .nan) ∧
    ((versionParts s)[1]? = some t → (versionStringToVersion s).minor = .nan) ∧
    ((versionParts s)[2]? = some t → (versionStringToVersion s).patch = .nan) ∧
    ((versionParts s)[3]? = some t → (versionStringToVersion s).build = .nan) := by
  obtain ⟨c, r, rfl⟩ : ∃ c r, t = c :: r := by
    cases t with
    | nil => exact absurd rfl hne
    | cons c r => exact ⟨c, r, rfl⟩
  have hc : isAsciiAlpha c = true := by
    simp only [List.all_cons, Bool.and_eq_true] at halpha
    exact halpha.1
  have key : ∀ (i : ℕ) (dflt : List Char), (versionParts s)[i]? = some (c :: r) →
      strToNumber (trimText (orDefault (versionParts s) i dflt)) = .nan := by
    intro i dflt hi
    unfold orDefault
    rw [hi]
    have hie : (c :: r).isEmpty = false := rfl
    simp only [hie, Bool.false_eq_true, if_false]
    rw [trimText_head_nondigit]
    · exact strToNumber_alpha _ halpha hne hinf
    · rw [firstNonDigit, not_digit_of_alpha hc, if_neg Bool.false_ne_true]
  exact ⟨key 0 _, key 1 _, key 2 _, key 3 _⟩

theorem versionStringToVersion_alpha_nan_witness :
    (versionStringToVersion "abc.1").major = JSNum.nan :=
  (versionStringToVersion_alpha_nan "abc.1" ['a', 'b', 'c'] (by decide) (by decide)
    (by decide)).1 (by decide)

/-- C8: a token whose first non-digit occurs at a positive index is truncated
to its leading digit prefix before numeric conversion, at every token
position; `2.3-rc.4' parses with minor 3 (token `3-rc' truncated to `3'). -/
theorem versionStringToVersion_truncates (s : String) (t : List Char) (k : ℕ)
    (hpos : 0 < k) (hk : firstNonDigit t = some k) :
    ((versionParts s)[0]? = some t →
      (versionStringToVersion s).major = .num (digitsVal (t.take k))) ∧
    ((versionParts s)[1]? = some t →
      (versionStringToVersion s).minor = .num (digitsVal (t.take k))) ∧
    ((versionParts s)[2]? = some t →
      (versionStringToVersion s).patch = .num (digitsVal (t.take k))) ∧
    ((versionParts s)[3]? = some t →
      (versionStringToVersion s).build = .num (digitsVal (t.take k))) ∧
    versionStringToVersion "2.3-rc.4" = ⟨.num 2, .num 3, .num 4, .num 1⟩ := by
  have hne : t ≠ [] := by
    intro h
    rw [h] at hk
    exact Option.noConfusion hk
  obtain ⟨hkle, hdig⟩ := firstNonDigit_bound t k hk
  have htake_ne : t.take k ≠ [] := by
    intro h
    have := congrArg List.length h
    rw [List.length_take] at this
    simp only [List.length_nil] at this
    omega
  have htake_all : (t.take k).all isDigitChar = true := List.all_eq_true.mpr hdig
  have key : ∀ (i : ℕ) (dflt : List Char), (versionParts s)[i]? = some t →
      strToNumber (trimText (orDefault (versionParts s) i dflt)) =
        .num (digitsVal (t.take k)) := by
    intro i dflt hi
    unfold orDefault
    rw [hi]
    have hie : t.isEmpty = false := by
      cases t with
      | nil => exact absurd rfl hne
      | cons c r => rfl
    simp only [hie, Bool.false_eq_true, if_false]
    rw [trimText_take t k hk hpos]
    exact strToNumber_digits _ htake_ne htake_all
  exact ⟨key 0 _, key 1 _, key 2 _, key 3 _, by decide⟩

theorem versionStringToVersion_truncates_witness :
    (versionStringToVersion "2.3-rc.4").minor = JSNum.num 3 := by
  have h := (versionStringToVersion_truncates "2.3-rc.4" ['3', '-', 'r', 'c'] 1
    (by decide) (by decide)).2.1 (by decide)
  rw [h]
  decide

/-- C9: an absent or empty token defaults per position to `0', `1', `0', `1';
`2.3' parses as `{2, 3, 0, 1}' and the empty string as `{0, 1, 0, 1}'. -/
theorem versionStringToVersion_defaults (s : String) :
    (((versionParts s)[0]? = none ∨ (versionParts s)[0]? = some []) →
      (versionStringToVersion s).major = .num 0) ∧
    (((versionParts s)[1]? = none ∨ (versionParts s)[1]? = some []) →
      (versionStringToVersion s).minor = .num 1) ∧
    (((versionParts s)[2]? = none ∨ (versionParts s)[2]? = some []) →
      (versionStringToVersion s).patch = .num 0) ∧
    (((versionParts s)[3]? = none ∨ (versionParts s)[3]? = some []) →
      (versionStringToVersion s).build = .num 1) ∧
    versionStringToVersion "2.3" = ⟨.num 2, .num 3, .num 0, .num 1⟩ ∧
    versionStringToVersion "" = ⟨.num 0, .num 1, .num 0, .num 1⟩ := by
  have key : ∀ (i : ℕ) (dflt : List Char),
      ((versionParts s)[i]? = none ∨ (versionParts s)[i]? = some []) →
      orDefault (versionParts s) i dflt = dflt := by
    intro i dflt hi
    unfold orDefault
    rcases hi with hi | hi
    · rw [hi]
    · rw [hi]
      rfl
  refine ⟨fun h => ?_, fun h => ?_, fun h => ?_, fun h => ?_, by decide, by decide⟩
  · show strToNumber (trimText (orDefault (versionParts s) 0 ['0'])) = _
    rw [key 0 _ h]
    decide
  · show strToNumber (trimText (orDefault (versionParts s) 1 ['1'])) = _
    rw [key 1 _ h]
    decide
  · show strToNumber (trimText (orDefault (versionParts s) 2 ['0'])) = _
    rw [key 2 _ h]
    decide
  · show strToNumber (trimText (orDefault (versionParts s) 3 ['1'])) = _
    rw [key 3 _ h]
    decide

theorem versionStringToVersion_defaults_witness :
    (versionStringToVersion "2.3").patch = JSNum.num 0 :=
  (versionStringToVersion_defaults "2.3").2.2.1 (Or.inl (by decide))
